import Mathlib

/-!
Verification of the resetti instance state-machine and wall orchestration
engine against its specification.  The Go sources are shallowly embedded:
log lines become lists of characters, substring matching becomes the
list-infix relation, the per-instance mutable state becomes explicit
records, and every externally visible side effect (key presses, window
moves, freezes, notifications) is collected into an explicit effect list.
-/

namespace Resetti

/-! ## Old worker: log-driven state reader (`manager/worker.go`)

The worker tails an instance log.  `readState` consumes a batch of
complete lines and folds them into a `(state, updated)` pair; `updateState`
applies the preliminary checks and the focus-dependent transition policy.
-/

namespace Manager

/-- Instance phases of the old `mc` package, as referenced by the worker. -/
inductive InstanceState where
  | StateUnknown
  | StateReady
  | StateGenerating
  | StatePreview
  | StateIngame
deriving DecidableEq, Repr

open InstanceState

/-- `strings.Contains line marker`, on lists of characters. -/
def containsSub (line marker : List Char) : Bool := decide (marker <:+: line)

/-- The chat marker: lines containing it are skipped entirely. -/
def chatMarker : List Char := "CHAT".data

/-- Marker for a reset of a random-seed world: phase `Generating`. -/
def seedMarker : List Char := "Resetting a random seed".data

/-- Marker for world save/pause: the `Idle`-candidate, phase `Ready`. -/
def savingMarker : List Char := "Saving and pausing game...".data

/-- Marker for entry into the world preview: phase `Preview`. -/
def previewMarker : List Char := "Starting Preview at".data

/-- Marker for leaving world generation: phase `Generating`. -/
def leavingMarker : List Char := "Leaving world generation".data

/-- One iteration of the `readState` loop: skip chat lines, then apply the
four marker checks in source order (a later check overrides an earlier
one within the same line). -/
def readLineStep (acc : InstanceState × Bool) (line : List Char) :
    InstanceState × Bool :=
  if containsSub line chatMarker then acc
  else
    let acc := if containsSub line seedMarker then (StateGenerating, true) else acc
    let acc := if containsSub line savingMarker then (StateReady, true) else acc
    let acc := if containsSub line previewMarker then (StatePreview, true) else acc
    let acc := if containsSub line leavingMarker then (StateGenerating, true) else acc
    acc

/-- `Worker.readState`: fold all newly available complete lines, starting
from `(StateUnknown, false)`. -/
def readState (lines : List (List Char)) : InstanceState × Bool :=
  lines.foldl readLineStep (StateUnknown, false)

/-- A line is recognized when it is not a chat line and carries at least
one of the four phase markers. -/
def recognized (line : List Char) : Bool :=
  !containsSub line chatMarker &&
    (containsSub line seedMarker || containsSub line savingMarker ||
      containsSub line previewMarker || containsSub line leavingMarker)

/-- The phase a single recognized line resolves to (the last matching
check of the source's if-chain wins). -/
def lineState (line : List Char) : InstanceState :=
  (readLineStep (StateUnknown, false) line).1

/-- Keys sent by the worker's auto-pause macro. -/
inductive WKey where
  | keyF3
  | keyEscape
deriving DecidableEq, Repr

/-- Externally visible actions of `updateState`. -/
inductive WEffect where
  | notify (s : InstanceState)
  | keyDown (k : WKey)
  | keyPress (k : WKey)
  | keyUp (k : WKey)
  | logGetActiveErr
deriving DecidableEq, Repr

/-- `Worker.updateState`: read the batch, apply the preliminary checks
(no update, no change, and the LAN-world guard that discards a `Ready`
result while `Ingame`), then apply the focus-dependent policy.
`activeWin` is the result of `GetActiveWindow` (`none` when it failed)
and `win` is the instance's own window. -/
def updateState (cur : InstanceState) (lines : List (List Char))
    (activeWin : Option Nat) (win : Nat) : InstanceState × List WEffect :=
  let res := readState lines
  if !res.2 then (cur, [])
  else if cur = res.1 then (cur, [])
  else if cur = StateIngame ∧ res.1 = StateReady then (cur, [])
  else
    let st := res.1
    match activeWin with
    | none => (st, [WEffect.notify st, WEffect.logGetActiveErr])
    | some aw =>
      let isPreview := st = StatePreview
      let isReady := st = StateReady
      let isActive := aw = win
      if isActive ∧ isReady then
        (StateIngame, [WEffect.notify st, WEffect.notify StateIngame])
      else if ¬isActive ∧ (isPreview ∨ isReady) then
        (st, [WEffect.notify st, WEffect.keyDown WKey.keyF3,
              WEffect.keyPress WKey.keyEscape, WEffect.keyUp WKey.keyF3])
      else (st, [WEffect.notify st])

end Manager

/-! ## New `mc` package: instance manager (`internal/mc/instance.go`) and
instance discovery (`internal/mc/mc.go`)

`Manager.Reset` checks reset legality under the manager lock and, when
legal, clears the active-instance marker if needed and emits the
phase-appropriate reset key.  `FindInstances` collects candidate
instances, sorts them by ID and rejects any discovery whose IDs are not
exactly `0..N-1`.
-/

namespace Mc

/-- Public instance states of the new `mc` package.  `stWorld` is the
internal raw world-loaded signal, resolved by `Manager.Run` before any
frontend sees it. -/
inductive StateType where
  | StIdle
  | StDirt
  | StPreview
  | StGenerating
  | StIngame
  | stWorld
deriving DecidableEq, Repr

open StateType

/-- The per-instance `State` structure: type, world-generation progress,
menu, and the time the instance last entered the preview screen.
Timestamps are naturals (nanoseconds, say); `Menu` is kept opaque. -/
structure State where
  typ : StateType
  progress : Nat
  menu : Nat
  lastPreview : Nat
deriving DecidableEq, Repr

instance : Inhabited State := ⟨⟨StateType.StIdle, 0, 0, 0⟩⟩

/-- The slice of the configuration profile `Manager.Reset` consults:
whether wall mode is enabled and the wall grace period. -/
structure Conf where
  wallEnabled : Bool
  gracePeriod : Nat
deriving DecidableEq, Repr

/-- Mutable manager state guarded by the mutex: the active instance ID
(`-1` signals no active instance) and the per-instance states. -/
structure MState where
  active : Int
  states : List State
deriving DecidableEq, Repr

/-- Key presses and window moves emitted by `Manager.Reset`. -/
inductive MEffect where
  | pressPreviewKey (id : Nat)
  | pressResetKey (id : Nat)
  | moveToStretchRes (id : Nat)
deriving DecidableEq, Repr

/-- `Manager.Reset`: returns whether the instance was in a legal state
for resetting, the manager state afterwards, and the emitted effects.
`now` is the current time, so that `time.Since(state.LastPreview)` is
`now - state.lastPreview`. -/
def Reset (m : MState) (conf : Conf) (id : Nat) (now : Nat) :
    Bool × MState × List MEffect :=
  if (m.states.getD id default).typ = StDirt then (false, m, [])
  else if (m.states.getD id default).typ = StPreview ∧
      (m.states.getD id default).progress > 85 then (false, m, [])
  else if conf.wallEnabled ∧
      now - (m.states.getD id default).lastPreview < conf.gracePeriod then
    (false, m, [])
  else if (m.states.getD id default).typ = StPreview then
    (true, if m.active = (id : Int) then { m with active := -1 } else m,
      (if m.active = (id : Int) then [MEffect.moveToStretchRes id] else []) ++
        [MEffect.pressPreviewKey id])
  else
    (true, if m.active = (id : Int) then { m with active := -1 } else m,
      (if m.active = (id : Int) then [MEffect.moveToStretchRes id] else []) ++
        [MEffect.pressResetKey id])

/-- Immutable data of a discovered instance; only the ID matters for the
discovery invariant, the remaining fields are carried opaquely. -/
structure InstanceInfo where
  id : Nat
  pid : Nat
  wid : Nat
deriving DecidableEq, Repr

/-- The sort in `FindInstances` (`sort.Slice` by increasing ID). -/
def sortById (l : List InstanceInfo) : List InstanceInfo :=
  List.insertionSort (fun a b => a.id ≤ b.id) l

instance : IsTotal InstanceInfo (fun a b => a.id ≤ b.id) :=
  ⟨fun a b => Nat.le_total a.id b.id⟩

instance : IsTrans InstanceInfo (fun a b => a.id ≤ b.id) :=
  ⟨fun _ _ _ hab hbc => Nat.le_trans hab hbc⟩

/-- The loop checking that the sorted instances have IDs `0, 1, 2, ...`
starting from `i`. -/
def checkSequential : List InstanceInfo → Nat → Bool
  | [], _ => true
  | v :: rest, i => v.id = i && checkSequential rest (i + 1)

/-- The validation tail of `FindInstances`: reject an empty discovery,
sort by ID, reject if the least ID is not `0` or the IDs are not
sequential, and otherwise return the sorted list. -/
def findInstancesCheck (l : List InstanceInfo) :
    Except String (List InstanceInfo) :=
  if l.length = 0 then .error "no instances found"
  else
    match sortById l with
    | [] => .error "no instances found"
    | v0 :: rest =>
      if v0.id ≠ 0 then .error "no instance with id 0"
      else if checkSequential (v0 :: rest) 0 then .ok (v0 :: rest)
      else .error "instances do not have sequential IDs"

end Mc

/-! ## Old wall orchestrator (`reset` package, `mc.go` tail)

`wallState` holds the per-instance wall bookkeeping; `wallPlay`,
`wallResetInstance`, `wallResetOthers` and `wallLock` are modelled as
pure transitions emitting an explicit effect list.  Freezes scheduled by
the concurrent-reset admission control appear as `scheduleFreeze`
effects (the source sends the ID on the `forceFreeze` channel after a
fixed 500 ms delay).
-/

namespace Wall

/-- Wall-side instance states (`reset` package). -/
inductive WState where
  | StIdle
  | StGenerating
  | StPreview
  | StIngame
deriving DecidableEq, Repr

open WState

/-- Per-instance state as held in `wallState.states`. -/
structure WInstState where
  state : WState
  progress : Nat
deriving DecidableEq, Repr

instance : Inhabited WInstState := ⟨⟨WState.StIdle, 0⟩⟩

/-- The slice of the configuration the modelled wall operations read. -/
structure WConf where
  affinityEnabled : Bool
  unpauseFocus : Bool
  clickFocus : Bool
  stretchWindows : Bool
  concResets : Nat
deriving DecidableEq, Repr

/-- Hook identifiers (`conf.Hooks`). -/
inductive WHook where
  | hookLock
  | hookUnlock
  | hookWallReset
deriving DecidableEq, Repr

/-- Externally visible actions of the wall operations. -/
inductive RWEffect where
  | unfreeze (id : Nat)
  | setAffinityActive (id : Nat)
  | setAffinityHigh (id : Nat)
  | uiUpdate (id : Nat) (s : WInstState)
  | setSceneInstance (id : Nat)
  | ungrabWallKeys
  | focusWin (id : Nat)
  | pressEsc (id : Nat)
  | clickWin (id : Nat)
  | moveWinUnstretch (id : Nat)
  | lockIndicator (id : Nat) (b : Bool)
  | resetKey (id : Nat)
  | scheduleFreeze (id : Nat)
  | runHook (h : WHook)
deriving DecidableEq, Repr

/-- The instance IDs of the forced freezes scheduled in an effect
list, in order. -/
def scheduledFreezes : List RWEffect → List Nat
  | [] => []
  | RWEffect.scheduleFreeze id :: rest => id :: scheduledFreezes rest
  | _ :: rest => scheduledFreezes rest

/-- Mutable wall state (`wallState`): per-instance states, lock and
frozen flags, last input timestamps, the current instance and whether
the wall view is showing. -/
structure WallS where
  states : List WInstState
  locks : List Bool
  frozen : List Bool
  lastTime : List Nat
  current : Nat
  onWall : Bool
deriving DecidableEq, Repr

/-- `wallUpdateLastTime`: raise (never regress) an instance's input
timestamp. -/
def wallUpdateLastTime (w : WallS) (id : Nat) (timestamp : Nat) : WallS :=
  if w.lastTime.getD id 0 < timestamp then
    { w with lastTime := w.lastTime.set id timestamp }
  else w

/-- `wallSetLock`: write the lock flag and flip the broadcast lock
indicator, skipping both when the flag already has the target value. -/
def wallSetLock (w : WallS) (id : Nat) (state : Bool) : WallS × List RWEffect :=
  if w.locks.getD id false = state then (w, [])
  else ({ w with locks := w.locks.set id state }, [RWEffect.lockIndicator id state])

/-- `wallGetResettingCount`: the number of instances currently in
`StGenerating` or `StPreview`. -/
def wallGetResettingCount (w : WallS) : Nat :=
  w.states.countP (fun v => v.state = StGenerating ∨ v.state = StPreview)

/-- `wallPlay`: a no-op unless the target is `StIdle`; otherwise
unfreeze it, raise it to the active affinity class, mark it `StIngame`,
switch the broadcast scene, release the wall key grabs, focus it, run
the configured focus actions, clear its lock indicator, and record it as
the current instance, leaving the wall view. -/
def wallPlay (conf : WConf) (w : WallS) (id : Nat) (timestamp : Nat) :
    WallS × List RWEffect :=
  if (w.states.getD id default).state ≠ StIdle then (w, [])
  else
    let effs0 := [RWEffect.unfreeze id]
    let effs1 := if conf.affinityEnabled then [RWEffect.setAffinityActive id] else []
    let st2 := { w.states.getD id default with state := StIngame }
    let w1 := { w with states := w.states.set id st2 }
    let effs2 := [RWEffect.uiUpdate id st2, RWEffect.setSceneInstance id,
                  RWEffect.ungrabWallKeys, RWEffect.focusWin id]
    let w2 := wallUpdateLastTime w1 id timestamp
    let effs3 := if conf.unpauseFocus then [RWEffect.pressEsc id] else []
    let effs4 := if conf.clickFocus then [RWEffect.clickWin id] else []
    let effs5 := if conf.stretchWindows then [RWEffect.moveWinUnstretch id] else []
    let w3 := { (wallSetLock w2 id false).1 with onWall := false, current := id }
    (w3, effs0 ++ effs1 ++ effs2 ++ effs3 ++ effs4 ++ effs5 ++
      (wallSetLock w2 id false).2)

/-- The wall state after the state mutations of a legal
`wallResetInstance`: the timestamp raise and the switch of the target's
phase to `StGenerating`. -/
def wallMarkGenerating (w : WallS) (id : Nat) (timestamp : Nat) : WallS :=
  let w1 := wallUpdateLastTime w id timestamp
  { w1 with
    states := w1.states.set id
      { w1.states.getD id default with state := StGenerating } }

/-- `wallResetInstance`: a no-op when the instance is locked, frozen, or
already `StGenerating`; otherwise unfreeze it, send the reset key, mark
it `StGenerating`, and if the concurrent-reset count now exceeds the
configured cap, schedule a delayed forced freeze of this very instance;
finally run the wall-reset hook. -/
def wallResetInstance (conf : WConf) (w : WallS) (id : Nat) (timestamp : Nat) :
    WallS × List RWEffect :=
  if w.locks.getD id false ∨ w.frozen.getD id false ∨
      (w.states.getD id default).state = StGenerating then (w, [])
  else
    (wallMarkGenerating w id timestamp,
     [RWEffect.unfreeze id, RWEffect.resetKey id] ++
       (if conf.concResets ≠ 0 ∧
           wallGetResettingCount (wallMarkGenerating w id timestamp) >
             conf.concResets
         then [RWEffect.scheduleFreeze id] else []) ++
       [RWEffect.runHook WHook.hookWallReset])

/-- `wallResetOthers`: guard on the target being `StIdle`, then play it
and reset every other instance in index order. -/
def wallResetOthers (conf : WConf) (w : WallS) (id : Nat) (timestamp : Nat) :
    WallS × List RWEffect :=
  if (w.states.getD id default).state ≠ StIdle then (w, [])
  else
    let (w, effs) := wallPlay conf w id timestamp
    (List.range w.states.length).foldl
      (fun (acc : WallS × List RWEffect) i =>
        if i ≠ id then
          let (w2, e2) := wallResetInstance conf acc.1 i timestamp
          (w2, acc.2 ++ e2)
        else acc)
      (w, effs)

/-- `wallLock`: toggle the lock flag; on lock, run the lock hook and
protect a previewing instance with high affinity; on unlock, run the
unlock hook. -/
def wallLock (conf : WConf) (w : WallS) (id : Nat) : WallS × List RWEffect :=
  let (w, effs) := wallSetLock w id (!(w.locks.getD id false))
  if w.locks.getD id false then
    let effs2 := if conf.affinityEnabled ∧ (w.states.getD id default).state = StPreview
      then [RWEffect.setAffinityHigh id] else []
    (w, effs ++ [RWEffect.runHook WHook.hookLock] ++ effs2)
  else
    (w, effs ++ [RWEffect.runHook WHook.hookUnlock])

/-- Modelled from the spec: the wall log reader (`startLogReaders` and
its reader, not under `src/`) produces per-instance raw phases from the
marker table of the spec: world generation, preview entry, and the
world-saved `Idle`-candidate.  It never produces `StIngame`. -/
inductive LogPhase where
  | logGenerating
  | logPreview (progress : Nat)
  | logIdle
deriving DecidableEq, Repr

/-- The wall instance state a raw log phase carries. -/
def LogPhase.toWInstState (p : LogPhase) (prev : WInstState) : WInstState :=
  match p with
  | .logGenerating => { prev with state := WState.StGenerating }
  | .logPreview progress => { state := WState.StPreview, progress := progress }
  | .logIdle => { prev with state := WState.StIdle }

/-- One operation of the wall main loop, as driven by hotkeys, pointer
events and log updates. -/
inductive WallOp where
  | play (id : Nat) (timestamp : Nat)
  | resetInst (id : Nat) (timestamp : Nat)
  | resetOthers (id : Nat) (timestamp : Nat)
  | lockInst (id : Nat)
  | logUpdate (id : Nat) (p : LogPhase)
deriving DecidableEq, Repr

/-- Apply one operation to the wall state (the main-loop handler for the
corresponding event; a log update overwrites the stored instance
state). -/
def applyOp (conf : WConf) (w : WallS) (op : WallOp) : WallS :=
  match op with
  | .play id timestamp => (wallPlay conf w id timestamp).1
  | .resetInst id timestamp => (wallResetInstance conf w id timestamp).1
  | .resetOthers id timestamp => (wallResetOthers conf w id timestamp).1
  | .lockInst id => (wallLock conf w id).1
  | .logUpdate id p =>
      { w with states := w.states.set id (p.toWInstState (w.states.getD id default)) }

/-- Run a sequence of wall operations. -/
def runOps (conf : WConf) (w : WallS) (ops : List WallOp) : WallS :=
  ops.foldl (applyOp conf) w

/-- The number of instances currently in phase `StIngame`. -/
def ingameCount (w : WallS) : Nat :=
  w.states.countP (fun v => v.state = StIngame)

/-- The number of instance indices currently marked as the wall's
current (active) instance. -/
def activeCount (w : WallS) : Nat :=
  (List.range w.states.length).countP (fun i => i = w.current)

end Wall

/-! ## New `ctl` package: reset counter and input manager

The counter file holds the decimal reset count; `counter.write` seeks to
offset 0 and rewrites the digits in place without truncating, and
`newCounter` parses the file (an absent file is created empty; an empty
file yields count 0).  File contents are modelled as big-endian decimal
digit lists.  The input manager polls the devices, collects the
satisfied bindings in configuration-map iteration order, sorts them with
the source's comparator (Go `slices.SortFunc`, whose small-slice
insertion sort bubbles each new element left from the end), and emits at
most one input per tick.
-/

namespace Ctl

/-- `strconv.Itoa` on naturals: the big-endian decimal digits. -/
def decRepr (n : Nat) : List Nat :=
  if n = 0 then [0] else (Nat.digits 10 n).reverse

/-- Writing `newC` at offset 0 of a file holding `old` without
truncation: any old bytes past the written length survive. -/
def overlayWrite (newC old : List Nat) : List Nat :=
  newC ++ old.drop newC.length

/-- `counter.write`: rewrite the file in place with the decimal count. -/
def counterWrite (count : Nat) (old : List Nat) : List Nat :=
  overlayWrite (decRepr count) old

/-- `strconv.Atoi` on a digit list: defined exactly on nonempty
all-decimal contents. -/
def atoiDigits (l : List Nat) : Option Nat :=
  if l ≠ [] ∧ l.all (· < 10) then some (Nat.ofDigits 10 l.reverse) else none

/-- The count loaded by `newCounter`: an absent file is created empty
(`O_CREATE`); the read buffer holds at most 32 bytes, an empty read
yields 0, anything else is parsed; `none` means counter construction
failed. -/
def newCounterCount : Option (List Nat) → Option Nat
  | none => some 0
  | some l =>
    if l.take 32 = [] then some 0 else atoiDigits (l.take 32)

/-- A configured key binding: its key set and pointer-button set
(`cfg.Bind` restricted to the fields the poller reads). -/
structure Bind where
  keys : List Nat
  buttons : List Nat
deriving DecidableEq, Repr

/-- The satisfied bindings of one polling tick, in configuration-map
iteration order: every binding whose full key set and button set are
currently pressed. -/
def candidates (conf : List Bind) (keysPressed buttonsPressed : List Nat) :
    List Bind :=
  conf.filter (fun b =>
    b.keys.all (keysPressed.contains ·) && b.buttons.all (buttonsPressed.contains ·))

/-- The source's `SortFunc` comparator: `a` sorts before `b` when `a`
has more keys; otherwise when `a` has more buttons (note: the second
test fires even when `a` has strictly fewer keys). -/
def ltBind (a b : Bind) : Bool :=
  if b.keys.length < a.keys.length then true
  else decide (b.buttons.length < a.buttons.length)

/-- The comparison the spec intends: strictly more keys first, ties by
strictly more buttons.  It agrees with `ltBind` on every pair without
the fewer-keys-but-more-buttons inversion. -/
def lexGT (a b : Bind) : Bool :=
  decide (b.keys.length < a.keys.length) ||
    (decide (a.keys.length = b.keys.length) &&
      decide (b.buttons.length < a.buttons.length))

/-- One step of Go's small-slice insertion sort: the new element `x`
bubbles from the right end of the sorted prefix toward the left while it
compares before its predecessor. -/
def insGo {α : Type} (lt : α → α → Bool) (x : α) (s : List α) : List α :=
  (s.reverse.dropWhile (fun y => lt x y)).reverse ++
    x :: (s.reverse.takeWhile (fun y => lt x y)).reverse

/-- Insertion sort processing the slice left to right. -/
def sortGo {α : Type} (lt : α → α → Bool) (l : List α) : List α :=
  l.foldl (fun s x => insGo lt x s) []

/-- A delivered `Input`: the winning binding, whether it is a repeat,
and the pointer position. -/
structure InputEv where
  bind : Bind
  held : Bool
  px : Int
  py : Int
deriving DecidableEq, Repr

/-- One tick of `inputManager.Run`: collect the satisfied bindings; with
none, remember the empty list and emit nothing; otherwise sort them with
the source comparator, emit the first, and flag it as a repeat exactly
when it occurs in the previous tick's satisfied list.  Returns the
emitted event (if any) and the new `lastBinds`. -/
def pollTick (conf : List Bind) (keysPressed buttonsPressed : List Nat)
    (lastBinds : List Bind) (px py : Int) : Option InputEv × List Bind :=
  let pressed := candidates conf keysPressed buttonsPressed
  if pressed.isEmpty then (none, pressed)
  else
    let sorted := sortGo ltBind pressed
    match sorted.head? with
    | none => (none, sorted)
    | some b => (some ⟨b, lastBinds.contains b, px, py⟩, sorted)

end Ctl

end Resetti

/-! ### Definitions above, theorems below. -/

namespace Resetti

namespace Manager

open InstanceState

/-- A recognized line forces the accumulator to `(lineState line, true)`
independently of the accumulator's prior value. -/
theorem readLineStep_recognized (acc : InstanceState × Bool) (line : List Char)
    (h : recognized line = true) : readLineStep acc line = (lineState line, true) := by
  unfold recognized at h
  unfold readLineStep lineState readLineStep
  simp only [Bool.and_eq_true, Bool.not_eq_true', Bool.or_eq_true] at h
  obtain ⟨hchat, hmark⟩ := h
  simp only [hchat, Bool.false_eq_true, if_false]
  rcases h4 : containsSub line leavingMarker with h4v | h4v
  · rcases h3 : containsSub line previewMarker with h3v | h3v
    · rcases h2 : containsSub line savingMarker with h2v | h2v
      · rcases h1 : containsSub line seedMarker with h1v | h1v
        · simp [h1, h2, h3, h4] at hmark ⊢
        · simp [h1, h2, h3, h4]
      · simp [h2, h3, h4]
    · simp [h3, h4]
  · simp [h4]

/-- An unrecognized line leaves the accumulator unchanged. -/
theorem readLineStep_unrecognized (acc : InstanceState × Bool) (line : List Char)
    (h : recognized line = false) : readLineStep acc line = acc := by
  unfold recognized at h
  unfold readLineStep
  rcases hc : containsSub line chatMarker with hcv | hcv
  · simp only [hc, Bool.false_eq_true, if_false]
    simp only [hc, Bool.not_false, Bool.true_and, Bool.or_eq_false_iff] at h
    obtain ⟨⟨⟨h1, h2⟩, h3⟩, h4⟩ := h
    simp [h1, h2, h3, h4]
  · simp [hc]

/-- The fold underlying `readState`, characterized by the last recognized
line of the batch (generalized over the accumulator). -/
theorem foldl_readLineStep_eq (lines : List (List Char)) :
    ∀ acc, lines.foldl readLineStep acc =
      match (lines.filter recognized).getLast? with
      | none => acc
      | some l => (lineState l, true) := by
  induction lines with
  | nil => intro acc; rfl
  | cons l ls ih =>
    intro acc
    rcases hr : recognized l with hv | hv
    · rw [List.foldl_cons, readLineStep_unrecognized acc l hr,
        List.filter_cons_of_neg (by simp [hr]), ih]
    · rw [List.foldl_cons, readLineStep_recognized acc l hr,
        List.filter_cons_of_pos hr, ih]
      cases hfl : (ls.filter recognized).getLast? with
      | none =>
        rw [List.getLast?_eq_none_iff] at hfl
        simp [hfl]
      | some l2 =>
        have : (l :: ls.filter recognized).getLast? = some l2 := by
          cases hls : ls.filter recognized with
          | nil => rw [hls] at hfl; simp at hfl
          | cons a as => rw [List.getLast?_cons_cons, ← hls]; exact hfl
        simp [this, hfl]

/-- `readState` is determined by the last recognized line of the batch. -/
theorem readState_eq_last_recognized (lines : List (List Char)) :
    readState lines =
      match (lines.filter recognized).getLast? with
      | none => (InstanceState.StateUnknown, false)
      | some l => (lineState l, true) :=
  foldl_readLineStep_eq lines _

/-- A recognized line is never a chat line, so filtering chat lines away
first does not change which lines are recognized. -/
theorem recognized_filter_chat (lines : List (List Char)) :
    (lines.filter (fun l => !containsSub l chatMarker)).filter recognized =
      lines.filter recognized := by
  rw [List.filter_filter]
  congr 1
  funext l
  unfold recognized
  cases containsSub l chatMarker <;> simp

end Manager

open Manager in
/-- C7: for every batch of complete log lines consumed by one
`readState` invocation, chat lines are ignored entirely; the last
recognized line determines the returned phase, with the seed-reset and
leaving-generation markers yielding `StateGenerating`, the
preview-start marker yielding `StatePreview` and the save-pause marker
yielding `StateReady` (the `Idle` candidate); and `wasUpdated` is false
exactly when no recognized marker appeared in the batch. -/
theorem C7_readState_batch (lines : List (List Char)) :
    (readState lines =
      readState (lines.filter (fun l => !containsSub l chatMarker))) ∧
    ((readState lines).2 = false ↔ ∀ l ∈ lines, recognized l = false) ∧
    (∀ pre l post, lines = pre ++ l :: post → recognized l = true →
      (∀ l2 ∈ post, recognized l2 = false) →
      readState lines = (lineState l, true)) ∧
    (∀ l, containsSub l chatMarker = false →
      ((containsSub l savingMarker = false →
        containsSub l previewMarker = false →
        containsSub l leavingMarker = false →
        containsSub l seedMarker = true →
        lineState l = InstanceState.StateGenerating) ∧
       (containsSub l previewMarker = false →
        containsSub l leavingMarker = false →
        containsSub l savingMarker = true →
        lineState l = InstanceState.StateReady) ∧
       (containsSub l leavingMarker = false →
        containsSub l previewMarker = true →
        lineState l = InstanceState.StatePreview) ∧
       (containsSub l leavingMarker = true →
        lineState l = InstanceState.StateGenerating))) := by
  refine ⟨?_, ?_, ?_, ?_⟩
  · rw [readState_eq_last_recognized, readState_eq_last_recognized,
      recognized_filter_chat]
  · rw [readState_eq_last_recognized]
    cases hfl : (lines.filter recognized).getLast? with
    | none =>
      rw [List.getLast?_eq_none_iff, List.filter_eq_nil_iff] at hfl
      simpa using hfl
    | some l =>
      simp only
      constructor
      · intro h; exact absurd h (by simp)
      · intro h
        have : lines.filter recognized = [] :=
          List.filter_eq_nil_iff.mpr (by intro a ha; simp [h a ha])
        rw [this] at hfl; simp at hfl
  · intro pre l post hsplit hrec hpost
    rw [readState_eq_last_recognized, hsplit, List.filter_append,
      List.filter_cons_of_pos hrec]
    have hpostnil : post.filter recognized = [] :=
      List.filter_eq_nil_iff.mpr (by intro a ha; simp [hpost a ha])
    rw [hpostnil, List.getLast?_concat]
  · intro l hchat
    refine ⟨?_, ?_, ?_, ?_⟩ <;>
      (intros; unfold lineState readLineStep; simp_all)

open Manager in
/-- C2: an `Idle`-candidate result (the save-pause marker, resolving the
whole batch to `StateReady`) arriving while the instance's phase is
`StateIngame` is discarded by `updateState`: the phase is unchanged and
no effect — in particular no state notification — is produced. -/
theorem C2_idle_candidate_discarded (lines : List (List Char))
    (activeWin : Option Nat) (win : Nat)
    (h : readState lines = (InstanceState.StateReady, true)) :
    updateState InstanceState.StateIngame lines activeWin win =
      (InstanceState.StateIngame, []) := by
  unfold updateState
  rw [h]
  simp

/-- Witness for C2 at a concrete batch consisting of exactly the
save-pause line. -/
theorem C2_idle_candidate_discarded_witness :
    Manager.updateState Manager.InstanceState.StateIngame
      [Manager.savingMarker] (some 5) 5 =
      (Manager.InstanceState.StateIngame, []) :=
  C2_idle_candidate_discarded [Manager.savingMarker] (some 5) 5 (by decide)

/-- Witness for C7: a batch of a chat line, a preview line and an
unrecognized partial line resolves to `StatePreview` with an update. -/
theorem C7_readState_batch_witness :
    Manager.readState
      [("x CHAT hello".data), Manager.previewMarker, ("noise".data)] =
      (Manager.InstanceState.StatePreview, true) :=
  (C7_readState_batch _).2.2.1 [("x CHAT hello".data)] Manager.previewMarker
    [("noise".data)] rfl (by decide) (by decide)

open Mc in
/-- C1: `Manager.Reset` fails — and leaves the manager state untouched,
emitting nothing — exactly when the instance's phase is `StDirt`, or it
is `StPreview` with progress above 85, or (in wall mode) the configured
grace period has not yet elapsed since the last preview entry; in every
other case, in particular for `StIdle`, `StGenerating` and `StPreview`
with progress at most 85 past the grace period, the reset succeeds. -/
theorem C1_reset_legality (m : MState) (conf : Conf) (id : Nat) (now : Nat)
    (_hid : id < m.states.length) :
    (((Reset m conf id now).1 = false) ↔
      ((m.states.getD id default).typ = StateType.StDirt ∨
       ((m.states.getD id default).typ = StateType.StPreview ∧
         (m.states.getD id default).progress > 85) ∨
       (conf.wallEnabled = true ∧
         now - (m.states.getD id default).lastPreview < conf.gracePeriod))) ∧
    (((Reset m conf id now).1 = false) →
      Reset m conf id now = (false, m, [])) := by
  clear _hid
  unfold Reset
  constructor
  · split_ifs with h1 h2 h3 h5
    all_goals simp_all
  · intro hfalse
    split_ifs at hfalse ⊢ with h1 h2 h3 h5
    all_goals simp_all

/-- Witness for C1: a `Dirt` instance is rejected, and an `Idle`
instance past the grace period is not rejected. -/
theorem C1_reset_legality_witness :
    ((Mc.Reset ⟨0, [⟨Mc.StateType.StDirt, 0, 0, 0⟩]⟩ ⟨true, 5⟩ 0 10).1 = false) ∧
    ((Mc.Reset ⟨-1, [⟨Mc.StateType.StIdle, 0, 0, 0⟩]⟩ ⟨true, 5⟩ 0 10).1 = true) := by
  constructor
  · exact (C1_reset_legality ⟨0, [⟨Mc.StateType.StDirt, 0, 0, 0⟩]⟩ ⟨true, 5⟩ 0 10
      (by decide)).1.mpr (by decide)
  · have h := (C1_reset_legality ⟨-1, [⟨Mc.StateType.StIdle, 0, 0, 0⟩]⟩ ⟨true, 5⟩ 0 10
      (by decide)).1
    revert h
    decide

open Mc in
/-- C8: a successful `Manager.Reset` clears the active-instance marker
when the reset instance is the active one and leaves it unchanged
otherwise; the recorded per-instance states are untouched either way. -/
theorem C8_reset_active_frame (m : MState) (conf : Conf) (id : Nat) (now : Nat)
    (hok : (Reset m conf id now).1 = true) :
    (Reset m conf id now).2.1.active =
      (if m.active = (id : Int) then -1 else m.active) ∧
    (Reset m conf id now).2.1.states = m.states := by
  unfold Reset at hok ⊢
  split_ifs at hok ⊢ with h1 h2 h3 h5 h4 h4
  all_goals simp_all

/-- Witness for C8: resetting the active `Idle` instance clears the
active marker; resetting a non-active instance preserves it. -/
theorem C8_reset_active_frame_witness :
    ((Mc.Reset ⟨0, [⟨Mc.StateType.StIdle, 0, 0, 0⟩]⟩ ⟨false, 0⟩ 0 10).2.1.active = -1) ∧
    ((Mc.Reset ⟨1, [⟨Mc.StateType.StIdle, 0, 0, 0⟩, ⟨Mc.StateType.StIdle, 0, 0, 0⟩]⟩
        ⟨false, 0⟩ 0 10).2.1.active = 1) := by
  constructor
  · have h := (C8_reset_active_frame ⟨0, [⟨Mc.StateType.StIdle, 0, 0, 0⟩]⟩ ⟨false, 0⟩
      0 10 (by decide)).1
    simpa using h
  · have h := (C8_reset_active_frame
      ⟨1, [⟨Mc.StateType.StIdle, 0, 0, 0⟩, ⟨Mc.StateType.StIdle, 0, 0, 0⟩]⟩
      ⟨false, 0⟩ 0 10 (by decide)).1
    simpa using h

namespace Wall

/-- `wallUpdateLastTime` only touches the timestamps. -/
theorem wallUpdateLastTime_frame (w : WallS) (id ts : Nat) :
    (wallUpdateLastTime w id ts).states = w.states ∧
    (wallUpdateLastTime w id ts).locks = w.locks ∧
    (wallUpdateLastTime w id ts).frozen = w.frozen ∧
    (wallUpdateLastTime w id ts).current = w.current ∧
    (wallUpdateLastTime w id ts).onWall = w.onWall := by
  unfold wallUpdateLastTime
  split <;> exact ⟨rfl, rfl, rfl, rfl, rfl⟩

/-- `wallSetLock` only touches the lock flags. -/
theorem wallSetLock_frame (w : WallS) (id : Nat) (b : Bool) :
    (wallSetLock w id b).1.states = w.states ∧
    (wallSetLock w id b).1.frozen = w.frozen ∧
    (wallSetLock w id b).1.current = w.current ∧
    (wallSetLock w id b).1.onWall = w.onWall := by
  unfold wallSetLock
  split <;> exact ⟨rfl, rfl, rfl, rfl⟩

/-- For a duplicate-free list of naturals, at most one entry equals any
fixed value. -/
theorem countP_eq_value_le_one (c : Nat) :
    ∀ l : List Nat, l.Nodup → l.countP (fun i => i = c) ≤ 1 := by
  intro l
  induction l with
  | nil => intro _; simp
  | cons a l ih =>
    intro h
    obtain ⟨ha, hl⟩ := List.nodup_cons.mp h
    rw [List.countP_cons]
    by_cases hac : a = c
    · subst hac
      have hz : l.countP (fun i => i = a) = 0 := by
        rw [List.countP_eq_zero]
        intro b hb
        simp only [decide_eq_true_eq]
        intro hba
        exact ha (hba ▸ hb)
      simp [hz]
    · simp only [hac, decide_False, if_false]
      simpa using ih hl

end Wall

open Wall in
/-- C10: `wallPlay` is a complete no-op — no state field changes and no
effect is emitted — whenever the target instance's phase is not
`StIdle`; in particular `StPreview`, `StGenerating` and any non-idle
phase cannot be played from the wall. -/
theorem C10_wallPlay_requires_idle (conf : WConf) (w : WallS) (id ts : Nat)
    (h : (w.states.getD id default).state ≠ WState.StIdle) :
    wallPlay conf w id ts = (w, []) := by
  unfold wallPlay
  rw [if_pos h]

/-- Witness for C10: a generating instance cannot be played. -/
theorem C10_wallPlay_requires_idle_witness :
    Wall.wallPlay ⟨true, true, true, true, 2⟩
      ⟨[⟨Wall.WState.StGenerating, 10⟩], [false], [false], [0], 0, true⟩ 0 7 =
      (⟨[⟨Wall.WState.StGenerating, 10⟩], [false], [false], [0], 0, true⟩, []) :=
  C10_wallPlay_requires_idle ⟨true, true, true, true, 2⟩
    ⟨[⟨Wall.WState.StGenerating, 10⟩], [false], [false], [0], 0, true⟩ 0 7
    (by decide)

open Wall in
/-- C4: `wallResetInstance` is a no-op when the instance is locked,
frozen or already generating; otherwise it marks the instance
`StGenerating` and schedules a forced freeze of exactly that instance —
the newest resetting one — precisely when the count of generating or
previewing instances then exceeds the configured nonzero cap.  With
cap 2 and two instances already generating, resetting a third and then
a fourth instance schedules exactly the two freezes of those two
instances. -/
theorem C4_wall_reset_admission (conf : WConf) (w : WallS) (id ts : Nat) :
    ((w.locks.getD id false = true ∨ w.frozen.getD id false = true ∨
        (w.states.getD id default).state = WState.StGenerating) →
      wallResetInstance conf w id ts = (w, [])) ∧
    (¬(w.locks.getD id false = true ∨ w.frozen.getD id false = true ∨
        (w.states.getD id default).state = WState.StGenerating) →
      ((wallResetInstance conf w id ts).1.states =
        w.states.set id
          { w.states.getD id default with state := WState.StGenerating } ∧
       scheduledFreezes (wallResetInstance conf w id ts).2 =
        (if conf.concResets ≠ 0 ∧
            wallGetResettingCount (wallResetInstance conf w id ts).1 >
              conf.concResets
          then [id] else []))) ∧
    (scheduledFreezes
        ((wallResetInstance ⟨false, false, false, false, 2⟩
            ⟨[⟨WState.StGenerating, 0⟩, ⟨WState.StGenerating, 0⟩,
              ⟨WState.StIdle, 0⟩, ⟨WState.StIdle, 0⟩],
              [false, false, false, false], [false, false, false, false],
              [0, 0, 0, 0], 0, true⟩ 2 1).2 ++
          (wallResetInstance ⟨false, false, false, false, 2⟩
            (wallResetInstance ⟨false, false, false, false, 2⟩
              ⟨[⟨WState.StGenerating, 0⟩, ⟨WState.StGenerating, 0⟩,
                ⟨WState.StIdle, 0⟩, ⟨WState.StIdle, 0⟩],
                [false, false, false, false], [false, false, false, false],
                [0, 0, 0, 0], 0, true⟩ 2 1).1 3 2).2) = [2, 3]) := by
  refine ⟨?_, ?_, by decide⟩
  · intro hguard
    unfold wallResetInstance
    rw [if_pos]
    rcases hguard with h | h | h
    · exact Or.inl h
    · exact Or.inr (Or.inl h)
    · exact Or.inr (Or.inr h)
  · intro hguard
    unfold wallResetInstance
    rw [if_neg hguard]
    refine ⟨?_, ?_⟩
    · simp [wallMarkGenerating, (wallUpdateLastTime_frame w id ts).1]
    · by_cases hc : conf.concResets ≠ 0 ∧
          wallGetResettingCount (wallMarkGenerating w id ts) > conf.concResets
      · simp [hc, scheduledFreezes]
      · simp only [Prod.fst]
        rw [if_neg hc, if_neg hc]
        simp [scheduledFreezes]

/-- Witness for C4: resetting an idle, unlocked, unfrozen instance with
the cap disabled marks it generating and schedules no freeze. -/
theorem C4_wall_reset_admission_witness :
    (Wall.wallResetInstance ⟨false, false, false, false, 0⟩
        ⟨[⟨Wall.WState.StIdle, 0⟩], [false], [false], [0], 0, true⟩ 0 1).1.states =
      [⟨Wall.WState.StGenerating, 0⟩] ∧
    Wall.scheduledFreezes
      (Wall.wallResetInstance ⟨false, false, false, false, 0⟩
        ⟨[⟨Wall.WState.StIdle, 0⟩], [false], [false], [0], 0, true⟩ 0 1).2 = [] := by
  have h := (C4_wall_reset_admission ⟨false, false, false, false, 0⟩
    ⟨[⟨Wall.WState.StIdle, 0⟩], [false], [false], [0], 0, true⟩ 0 1).2.1
    (by decide)
  obtain ⟨h1, h2⟩ := h
  refine ⟨by simpa using h1, by simpa using h2⟩

/-- C3 counterexample: from two idle instances, playing instance 0 and
then instance 1 (both legal wall operations; the pointer path invokes
`wallPlay` even away from the wall view) leaves both instances in phase
`StIngame` simultaneously, so the claimed invariant fails. -/
theorem C3_counterexample :
    1 < Wall.ingameCount (Wall.runOps ⟨false, false, false, false, 0⟩
      ⟨[⟨Wall.WState.StIdle, 0⟩, ⟨Wall.WState.StIdle, 0⟩], [false, false],
        [false, false], [0, 0], 0, true⟩
      [Wall.WallOp.play 0 1, Wall.WallOp.play 1 2]) := by decide

open Wall in
/-- C3 amended: across every operation sequence at most one instance is
marked active (the current marker is a single index), and a legal
`wallPlay` marks exactly its target `StIngame` and current — but it does
not clear a previously `StIngame` instance's phase, so more than one
instance can be in phase `StIngame` at a time. -/
theorem C3_amended_single_active (conf : WConf) (w0 : WallS) (ops : List WallOp) :
    activeCount (runOps conf w0 ops) ≤ 1 ∧
    (∀ id ts, (w0.states.getD id default).state = WState.StIdle →
      ((wallPlay conf w0 id ts).1.current = id ∧
       (wallPlay conf w0 id ts).1.onWall = false ∧
       (wallPlay conf w0 id ts).1.states =
         w0.states.set id
           { w0.states.getD id default with state := WState.StIngame })) := by
  constructor
  · unfold activeCount
    exact countP_eq_value_le_one _ _ (List.nodup_range _)
  · intro id ts hidle
    unfold wallPlay
    rw [if_neg (fun hne => hne hidle)]
    refine ⟨rfl, rfl, ?_⟩
    simp [(wallSetLock_frame _ _ _).1, (wallUpdateLastTime_frame _ _ _).1]

/-- Witness for C3 amended: playing the single idle instance marks it
current and `StIngame`. -/
theorem C3_amended_single_active_witness :
    (Wall.wallPlay ⟨false, false, false, false, 0⟩
        ⟨[⟨Wall.WState.StIdle, 0⟩], [false], [false], [0], 3, true⟩ 0 5).1.current = 0 ∧
    (Wall.wallPlay ⟨false, false, false, false, 0⟩
        ⟨[⟨Wall.WState.StIdle, 0⟩], [false], [false], [0], 3, true⟩ 0 5).1.states =
      [⟨Wall.WState.StIngame, 0⟩] := by
  have h := (C3_amended_single_active ⟨false, false, false, false, 0⟩
    ⟨[⟨Wall.WState.StIdle, 0⟩], [false], [false], [0], 3, true⟩ []).2 0 5 (by decide)
  exact ⟨h.1, by simpa using h.2.2⟩

namespace Ctl

/-- The decimal representation is never the empty string. -/
theorem decRepr_ne_nil (n : Nat) : decRepr n ≠ [] := by
  unfold decRepr
  split
  · simp
  next h =>
    intro hcon
    rw [List.reverse_eq_nil_iff] at hcon
    exact (Nat.digits_ne_nil_iff_ne_zero.mpr h) hcon

/-- The decimal representation does not get shorter as the number
grows. -/
theorem decRepr_length_mono {m n : Nat} (h : m ≤ n) :
    (decRepr m).length ≤ (decRepr n).length := by
  unfold decRepr
  by_cases hm : m = 0
  · rw [if_pos hm]
    by_cases hn : n = 0
    · rw [if_pos hn]
    · rw [if_neg hn]
      have hnil : Nat.digits 10 n ≠ [] := Nat.digits_ne_nil_iff_ne_zero.mpr hn
      have hpos : 0 < (Nat.digits 10 n).length := List.length_pos.mpr hnil
      simpa using hpos
  · have hn : n ≠ 0 := by omega
    rw [if_neg hm, if_neg hn]
    rw [List.length_reverse, List.length_reverse,
      Nat.digits_len 10 m (by norm_num) hm, Nat.digits_len 10 n (by norm_num) hn]
    have := Nat.log_mono_right (b := 10) h
    omega

/-- Parsing the decimal representation gives the number back. -/
theorem atoi_decRepr (n : Nat) : atoiDigits (decRepr n) = some n := by
  unfold atoiDigits
  rw [if_pos]
  · congr 1
    unfold decRepr
    by_cases hn : n = 0
    · rw [if_pos hn, hn]
      simp [Nat.ofDigits]
    · rw [if_neg hn, List.reverse_reverse, Nat.ofDigits_digits]
  · refine ⟨decRepr_ne_nil n, ?_⟩
    rw [List.all_eq_true]
    intro d hd
    simp only [decide_eq_true_eq]
    unfold decRepr at hd
    by_cases hn : n = 0
    · rw [if_pos hn] at hd
      simp at hd
      omega
    · rw [if_neg hn, List.mem_reverse] at hd
      exact Nat.digits_lt_base (by norm_num) hd

end Ctl

/-- C9: writing the counter file for count `n` (whose decimal fits the
32-byte read buffer) over any content the counter itself can have
produced (empty, or the decimal of some smaller or equal count) and
re-running `newCounter` on that file yields `n` again; an absent file
(created empty by `O_CREATE`) or an empty file yields count 0. -/
theorem C9_counter_roundtrip :
    (∀ (n : Nat) (old : List Nat), (Ctl.decRepr n).length ≤ 32 →
      (old = [] ∨ ∃ m, m ≤ n ∧ old = Ctl.decRepr m) →
      Ctl.newCounterCount (some (Ctl.counterWrite n old)) = some n) ∧
    Ctl.newCounterCount none = some 0 ∧
    Ctl.newCounterCount (some []) = some 0 := by
  refine ⟨?_, rfl, rfl⟩
  intro n old hlen hold
  have hw : Ctl.counterWrite n old = Ctl.decRepr n := by
    unfold Ctl.counterWrite Ctl.overlayWrite
    rcases hold with h | ⟨m, hmn, h⟩
    · subst h; simp
    · subst h
      rw [List.drop_eq_nil_of_le (Ctl.decRepr_length_mono hmn), List.append_nil]
  rw [hw]
  have hne := Ctl.decRepr_ne_nil n
  have htake : (Ctl.decRepr n).take 32 = Ctl.decRepr n :=
    List.take_of_length_le hlen
  show Ctl.newCounterCount (some (Ctl.decRepr n)) = some n
  unfold Ctl.newCounterCount
  dsimp only
  rw [htake, if_neg hne, Ctl.atoi_decRepr]

/-- Witness for C9: starting from a file holding `41`, persisting count
`44` and reloading yields `44`. -/
theorem C9_counter_roundtrip_witness :
    Ctl.newCounterCount (some (Ctl.counterWrite 44 (Ctl.decRepr 41))) = some 44 :=
  C9_counter_roundtrip.1 44 (Ctl.decRepr 41) (by norm_num [Ctl.decRepr])
    (Or.inr ⟨41, by decide, rfl⟩)

namespace Mc

/-- The discovery sort is a permutation of its input. -/
theorem sortById_perm (l : List InstanceInfo) : (sortById l).Perm l :=
  List.perm_insertionSort _ l

/-- The discovery sort orders instances by nondecreasing ID. -/
theorem sortById_sorted (l : List InstanceInfo) :
    List.Sorted (fun a b => a.id ≤ b.id) (sortById l) :=
  List.sorted_insertionSort _ l

/-- The sequential-ID check passes exactly when the IDs are the
consecutive naturals starting at the given index. -/
theorem checkSequential_iff : ∀ (l : List InstanceInfo) (i : Nat),
    checkSequential l i = true ↔
      l.map InstanceInfo.id = List.range' i l.length := by
  intro l
  induction l with
  | nil => intro i; simp [checkSequential]
  | cons v rest ih =>
    intro i
    simp [checkSequential, List.range'_succ, ih (i + 1), and_comm]

/-- `findInstancesCheck` succeeds exactly on a nonempty discovery whose
sorted IDs pass the sequential check, returning the sorted list. -/
theorem findInstancesCheck_ok_iff (l s : List InstanceInfo) :
    findInstancesCheck l = .ok s ↔
      (l ≠ [] ∧ s = sortById l ∧ checkSequential (sortById l) 0 = true) := by
  unfold findInstancesCheck
  by_cases hlen : l.length = 0
  · rw [if_pos hlen]
    rw [List.length_eq_zero] at hlen
    simp [hlen]
  · rw [if_neg hlen]
    have hlne : l ≠ [] := by
      intro hcon; exact hlen (by simp [hcon])
    cases hsort : sortById l with
    | nil =>
      exfalso
      have hperm := sortById_perm l
      rw [hsort] at hperm
      exact hlne (List.perm_nil.mp hperm.symm)
    | cons v0 rest =>
      dsimp only
      by_cases h0 : v0.id ≠ 0
      · rw [if_pos h0]
        constructor
        · intro hcon; exact absurd hcon (by simp)
        · rintro ⟨-, -, hchk⟩
          rw [checkSequential_iff] at hchk
          simp only [List.map_cons, List.length_cons, List.range'_succ,
            List.cons.injEq] at hchk
          exact absurd hchk.1 h0
      · rw [if_neg h0]
        by_cases hchk : checkSequential (v0 :: rest) 0 = true
        · rw [if_pos hchk]
          constructor
          · intro hok
            have hs : v0 :: rest = s := by
              have := hok
              simp only [Except.ok.injEq] at this
              exact this
            exact ⟨hlne, hs ▸ rfl, hchk⟩
          · rintro ⟨-, hs, -⟩
            rw [hs]
        · rw [if_neg hchk]
          constructor
          · intro hcon; exact absurd hcon (by simp)
          · rintro ⟨-, -, hc⟩
            exact absurd hc hchk

end Mc

open Mc in
/-- C5: instance discovery fails — returning an error, never a partial
result — whenever the discovered IDs are not exactly `0..N-1`: in
particular on an empty discovery, when no instance has ID 0, and when
IDs are non-sequential; on success the returned list is the input
sorted so that the instance at index `i` has ID `i`. -/
theorem C5_discovery_validation (l : List InstanceInfo) :
    (∀ s, findInstancesCheck l = .ok s →
      (s.Perm l ∧ ∀ i (h : i < s.length), s[i].id = i)) ∧
    ((∃ s, findInstancesCheck l = .ok s) ↔
      (l ≠ [] ∧ (l.map InstanceInfo.id).Perm (List.range l.length))) := by
  have hkey : ∀ s, findInstancesCheck l = .ok s →
      s.map InstanceInfo.id = List.range l.length := by
    intro s hok
    obtain ⟨-, hs, hchk⟩ := (findInstancesCheck_ok_iff l s).mp hok
    rw [checkSequential_iff] at hchk
    have hlens : (sortById l).length = l.length := (sortById_perm l).length_eq
    rw [hs, hchk, hlens, List.range_eq_range']
  constructor
  · intro s hok
    obtain ⟨-, hs, -⟩ := (findInstancesCheck_ok_iff l s).mp hok
    have hmap := hkey s hok
    refine ⟨hs ▸ sortById_perm l, ?_⟩
    intro i hi
    have hmaplen : (s.map InstanceInfo.id).length = s.length := List.length_map _ _
    have hrangelen : (List.range l.length).length = l.length := List.length_range _
    have hlen : s.length = l.length := by
      rw [← hmaplen, hmap, hrangelen]
    have hi2 : i < (s.map InstanceInfo.id).length := by rw [hmaplen]; exact hi
    have hi3 : i < (List.range l.length).length := by
      rw [hrangelen, ← hlen]; exact hi
    have hcell : (s.map InstanceInfo.id)[i] = (List.range l.length)[i] := by
      simp only [hmap]
    rw [List.getElem_map, List.getElem_range] at hcell
    exact hcell
  · constructor
    · rintro ⟨s, hok⟩
      obtain ⟨hlne, hs, -⟩ := (findInstancesCheck_ok_iff l s).mp hok
      refine ⟨hlne, ?_⟩
      have hmap := hkey s hok
      have hperm : (l.map InstanceInfo.id).Perm (s.map InstanceInfo.id) :=
        ((hs ▸ sortById_perm l : s.Perm l).map InstanceInfo.id).symm
      rw [hmap] at hperm
      exact hperm
    · rintro ⟨hlne, hperm⟩
      refine ⟨sortById l, (findInstancesCheck_ok_iff l _).mpr ⟨hlne, rfl, ?_⟩⟩
      rw [checkSequential_iff]
      have hlens : (sortById l).length = l.length := (sortById_perm l).length_eq
      rw [hlens, ← List.range_eq_range']
      have hpermsort : ((sortById l).map InstanceInfo.id).Perm
          (List.range l.length) :=
        ((sortById_perm l).map InstanceInfo.id).trans hperm
      have hsorted : List.Sorted (· ≤ ·) ((sortById l).map InstanceInfo.id) :=
        List.pairwise_map.mpr (sortById_sorted l)
      have hrsorted : List.Sorted (· ≤ ·) (List.range l.length) :=
        (List.pairwise_lt_range _).imp (fun h => Nat.le_of_lt h)
      exact List.eq_of_perm_of_sorted hpermsort hsorted hrsorted

/-- Witness for C5: a two-instance discovery listed out of order is
accepted and returned sorted; the forward clause gives index 1 the
ID 1. -/
theorem C5_discovery_validation_witness :
    Mc.findInstancesCheck [⟨1, 7, 8⟩, ⟨0, 5, 6⟩] =
      .ok [⟨0, 5, 6⟩, ⟨1, 7, 8⟩] ∧
    ([⟨0, 5, 6⟩, ⟨1, 7, 8⟩] : List Mc.InstanceInfo)[1].id = 1 := by
  have hok : Mc.findInstancesCheck [⟨1, 7, 8⟩, ⟨0, 5, 6⟩] =
      .ok [⟨0, 5, 6⟩, ⟨1, 7, 8⟩] := by
    rw [Mc.findInstancesCheck_ok_iff]
    refine ⟨by simp, by decide, by decide⟩
  refine ⟨hok, ?_⟩
  exact (C5_discovery_validation [⟨1, 7, 8⟩, ⟨0, 5, 6⟩]).1 _ hok |>.2 1 (by decide)

namespace Ctl

/-- Membership in one insertion step: exactly the new element plus the
old ones. -/
theorem insGo_mem {α : Type} (lt : α → α → Bool) (x : α) (s : List α) (y : α) :
    y ∈ insGo lt x s ↔ y = x ∨ y ∈ s := by
  unfold insGo
  simp only [List.mem_append, List.mem_cons, List.mem_reverse]
  have hsplit := List.takeWhile_append_dropWhile (fun z => lt x z) s.reverse
  constructor
  · rintro (h | h | h)
    · right
      have hmem : y ∈ s.reverse := by
        rw [← hsplit]; exact List.mem_append.mpr (Or.inr h)
      exact List.mem_reverse.mp hmem
    · exact Or.inl h
    · right
      have hmem : y ∈ s.reverse := by
        rw [← hsplit]; exact List.mem_append.mpr (Or.inl h)
      exact List.mem_reverse.mp hmem
  · rintro (h | h)
    · exact Or.inr (Or.inl h)
    · have hmem : y ∈ s.reverse := List.mem_reverse.mpr h
      rw [← hsplit] at hmem
      rcases List.mem_append.mp hmem with h2 | h2
      · exact Or.inr (Or.inr h2)
      · exact Or.inl h2

/-- Membership through the whole insertion-sort fold. -/
theorem foldl_insGo_mem {α : Type} (lt : α → α → Bool) :
    ∀ (l acc : List α) (y : α),
      (y ∈ l.foldl (fun s x => insGo lt x s) acc) ↔ (y ∈ acc ∨ y ∈ l) := by
  intro l
  induction l with
  | nil => intro acc y; simp
  | cons a l ih =>
    intro acc y
    rw [List.foldl_cons, ih, insGo_mem]
    simp only [List.mem_cons]
    tauto

/-- The sort is membership-preserving. -/
theorem sortGo_mem {α : Type} (lt : α → α → Bool) (l : List α) (y : α) :
    y ∈ sortGo lt l ↔ y ∈ l := by
  unfold sortGo
  rw [foldl_insGo_mem]
  simp

/-- `takeWhile` and `dropWhile` only consult the predicate on the
list's own elements. -/
theorem takeWhile_dropWhile_congr {α : Type} (p q : α → Bool) :
    ∀ l : List α, (∀ y ∈ l, p y = q y) →
      l.takeWhile p = l.takeWhile q ∧ l.dropWhile p = l.dropWhile q := by
  intro l
  induction l with
  | nil => intro _; exact ⟨rfl, rfl⟩
  | cons a l ih =>
    intro hag
    have ha : p a = q a := hag a (by simp)
    obtain ⟨ht, hd⟩ := ih (fun y hy => hag y (by simp [hy]))
    constructor
    · rw [List.takeWhile_cons, List.takeWhile_cons, ha, ht]
    · rw [List.dropWhile_cons, List.dropWhile_cons, ha, hd]

/-- One insertion step only compares the inserted element with the
accumulator's elements. -/
theorem insGo_congr {α : Type} (lt lt2 : α → α → Bool) (x : α) (s : List α)
    (hag : ∀ y ∈ s, lt x y = lt2 x y) : insGo lt x s = insGo lt2 x s := by
  unfold insGo
  obtain ⟨ht, hd⟩ := takeWhile_dropWhile_congr (fun y => lt x y) (fun y => lt2 x y)
    s.reverse (fun y hy => hag y (List.mem_reverse.mp hy))
  rw [ht, hd]

/-- The fold of insertion steps only compares elements drawn from the
carrier. -/
theorem foldl_insGo_congr {α : Type} (lt lt2 : α → α → Bool) (c : List α)
    (hag : ∀ a ∈ c, ∀ b ∈ c, lt a b = lt2 a b) :
    ∀ (l acc : List α), (∀ y ∈ l, y ∈ c) → (∀ y ∈ acc, y ∈ c) →
      l.foldl (fun s x => insGo lt x s) acc =
        l.foldl (fun s x => insGo lt2 x s) acc := by
  intro l
  induction l with
  | nil => intro acc _ _; rfl
  | cons a l ih =>
    intro acc hl hacc
    have ha : a ∈ c := hl a (by simp)
    have heq : insGo lt a acc = insGo lt2 a acc :=
      insGo_congr lt lt2 a acc (fun y hy => hag a ha y (hacc y hy))
    rw [List.foldl_cons, List.foldl_cons, heq]
    exact ih (insGo lt2 a acc) (fun y hy => hl y (by simp [hy]))
      (fun y hy => by
        rcases (insGo_mem lt2 a acc y).mp hy with rfl | h
        · exact ha
        · exact hacc y h)

/-- Two comparators agreeing on all pairs of a list sort it
identically. -/
theorem sortGo_congr {α : Type} (lt lt2 : α → α → Bool) (l : List α)
    (hag : ∀ a ∈ l, ∀ b ∈ l, lt a b = lt2 a b) : sortGo lt l = sortGo lt2 l := by
  unfold sortGo
  exact foldl_insGo_congr lt lt2 l hag l [] (fun y hy => hy) (fun y hy => by simp at hy)

/-- Under an asymmetric comparator with transitive complement, one
insertion step preserves head-maximality: no element of the result
compares before the head. -/
theorem insGo_headMax {α : Type} (lt : α → α → Bool)
    (asym : ∀ a b, lt a b = true → lt b a = false)
    (negTrans : ∀ a b c, lt a b = false → lt b c = false → lt a c = false)
    (x : α) (s : List α)
    (hmax : ∀ h, s.head? = some h → ∀ y ∈ s, lt y h = false) :
    ∀ h, (insGo lt x s).head? = some h → ∀ y, (y = x ∨ y ∈ s) →
      lt y h = false := by
  intro h hhead y hy
  have hxx : lt x x = false := by
    by_cases hlt : lt x x = true
    · exact asym x x hlt
    · simpa using hlt
  have hsplit := List.takeWhile_append_dropWhile (fun z => lt x z) s.reverse
  unfold insGo at hhead
  cases hdrop : s.reverse.dropWhile (fun z => lt x z) with
  | nil =>
    rw [hdrop] at hhead
    simp only [List.reverse_nil, List.nil_append, List.head?_cons,
      Option.some.injEq] at hhead
    subst hhead
    rcases hy with rfl | hmem
    · exact hxx
    · have htake : s.reverse.takeWhile (fun z => lt x z) = s.reverse := by
        rw [hdrop, List.append_nil] at hsplit
        exact hsplit
      have : y ∈ s.reverse.takeWhile (fun z => lt x z) := by
        rw [htake]; exact List.mem_reverse.mpr hmem
      exact asym x y (List.mem_takeWhile_imp this)
  | cons d ds =>
    rw [hdrop] at hhead
    have hh : (d :: ds).reverse.head? = some h := by
      cases hrh : (d :: ds).reverse.head? with
      | none =>
        rw [List.head?_eq_none_iff] at hrh
        exact absurd hrh (by simp)
      | some h2 =>
        rw [List.head?_append, hrh] at hhead
        simpa using hhead
    have hsne : s.head? = some h := by
      have hs : s = (d :: ds).reverse ++
          (s.reverse.takeWhile (fun z => lt x z)).reverse := by
        rw [hdrop] at hsplit
        calc s = s.reverse.reverse := (List.reverse_reverse s).symm
        _ = (s.reverse.takeWhile (fun z => lt x z) ++ d :: ds).reverse := by
              rw [hsplit]
        _ = (d :: ds).reverse ++
              (s.reverse.takeWhile (fun z => lt x z)).reverse := by
              rw [List.reverse_append]
      rw [hs, List.head?_append, hh]
      rfl
    have hd_prop : lt x d = false := by
      have := List.head?_dropWhile_not (fun z => lt x z) s.reverse
      rw [hdrop] at this
      simpa using this
    have hd_mem : d ∈ s := by
      have hmem : d ∈ s.reverse := by
        rw [← hsplit]
        exact List.mem_append.mpr (Or.inr (by rw [hdrop]; simp))
      exact List.mem_reverse.mp hmem
    rcases hy with rfl | hmem
    · exact negTrans y d h hd_prop (hmax h hsne d hd_mem)
    · exact hmax h hsne y hmem

/-- Head-maximality through the whole fold. -/
theorem foldl_insGo_headMax {α : Type} (lt : α → α → Bool)
    (asym : ∀ a b, lt a b = true → lt b a = false)
    (negTrans : ∀ a b c, lt a b = false → lt b c = false → lt a c = false) :
    ∀ (l acc : List α),
      (∀ h, acc.head? = some h → ∀ y ∈ acc, lt y h = false) →
      ∀ h, (l.foldl (fun s x => insGo lt x s) acc).head? = some h →
      ∀ y, (y ∈ acc ∨ y ∈ l) → lt y h = false := by
  intro l
  induction l with
  | nil =>
    intro acc hacc h hh y hy
    rcases hy with hy | hy
    · exact hacc h hh y hy
    · simp at hy
  | cons a l ih =>
    intro acc hacc h hh y hy
    rw [List.foldl_cons] at hh
    have hacc2 : ∀ h2, (insGo lt a acc).head? = some h2 →
        ∀ z ∈ insGo lt a acc, lt z h2 = false := by
      intro h2 hh2 z hz
      exact insGo_headMax lt asym negTrans a acc hacc h2 hh2 z
        ((insGo_mem lt a acc z).mp hz)
    rcases hy with hy | hy
    · exact ih (insGo lt a acc) hacc2 h hh y
        (Or.inl ((insGo_mem lt a acc y).mpr (Or.inr hy)))
    · rcases List.mem_cons.mp hy with rfl | hy2
      · exact ih (insGo lt y acc) hacc2 h hh y
          (Or.inl ((insGo_mem lt y acc y).mpr (Or.inl rfl)))
      · exact ih (insGo lt a acc) hacc2 h hh y (Or.inr hy2)

/-- The head of the sorted list compares before no element of the
input. -/
theorem sortGo_headMax {α : Type} (lt : α → α → Bool)
    (asym : ∀ a b, lt a b = true → lt b a = false)
    (negTrans : ∀ a b c, lt a b = false → lt b c = false → lt a c = false)
    (l : List α) :
    ∀ h, (sortGo lt l).head? = some h → ∀ y ∈ l, lt y h = false := by
  intro h hh y hy
  exact foldl_insGo_headMax lt asym negTrans l []
    (fun h2 hh2 => by simp at hh2) h hh y (Or.inr hy)

/-- `lexGT` is asymmetric. -/
theorem lexGT_asym (a b : Bind) : lexGT a b = true → lexGT b a = false := by
  unfold lexGT
  simp only [Bool.or_eq_true, Bool.and_eq_true, decide_eq_true_eq,
    Bool.or_eq_false_iff, Bool.and_eq_false_iff, decide_eq_false_iff_not]
  omega

/-- The complement of `lexGT` is transitive. -/
theorem lexGT_negTrans (a b c : Bind) :
    lexGT a b = false → lexGT b c = false → lexGT a c = false := by
  unfold lexGT
  simp only [Bool.or_eq_false_iff, Bool.and_eq_false_iff,
    decide_eq_false_iff_not]
  omega

/-- On every pair without the fewer-keys-but-more-buttons inversion the
source comparator agrees with the intended lexicographic one. -/
theorem ltBind_eq_lexGT (a b : Bind)
    (hab : ¬(a.keys.length < b.keys.length ∧
      b.buttons.length < a.buttons.length)) :
    ltBind a b = lexGT a b := by
  unfold ltBind lexGT
  by_cases h1 : b.keys.length < a.keys.length
  · simp [h1]
  · rw [if_neg h1]
    by_cases h2 : a.keys.length = b.keys.length
    · simp [h1, h2]
    · have hlt : a.keys.length < b.keys.length := by omega
      have hnb : ¬ b.buttons.length < a.buttons.length := fun hc => hab ⟨hlt, hc⟩
      simp [h1, h2, hnb]

end Ctl

/-- C6 counterexample: with bindings `b1 = one key plus one button` and
`b2 = two keys`, a first tick holding both key sets picks `b2`; on the
next tick only `b1` is satisfied and it is emitted with `IsRepeat =
true`, even though `b1` did not win the preceding tick (`b2 ≠ b1` did) —
`IsRepeat` actually records membership in the previous tick's candidate
list, not having won it. -/
theorem C6_counterexample :
    ((Ctl.pollTick [⟨[1], [1]⟩, ⟨[1, 2], []⟩] [1, 2] [1] [] 0 0).1 =
      some ⟨⟨[1, 2], []⟩, false, 0, 0⟩) ∧
    ((Ctl.pollTick [⟨[1], [1]⟩, ⟨[1, 2], []⟩] [1] [1]
        (Ctl.pollTick [⟨[1], [1]⟩, ⟨[1, 2], []⟩] [1, 2] [1] [] 0 0).2 0 0).1 =
      some ⟨⟨[1], [1]⟩, true, 0, 0⟩) ∧
    (⟨[1], [1]⟩ : Ctl.Bind) ≠ ⟨[1, 2], []⟩ := by decide

open Ctl in
/-- C6 amended: each tick emits at most one event, and only when some
binding is satisfied; the emitted binding is one of the satisfied
candidates and `IsRepeat` is true iff it was among the *satisfied
candidates* of the immediately preceding tick (not necessarily its
winner); and whenever no two candidates exhibit the
fewer-keys-but-more-buttons inversion, the winner has the most keys,
ties broken by most buttons — with an inversion present the winner
additionally depends on the configuration map's iteration order. -/
theorem C6_amended_input_resolution (conf : List Bind) (keys buttons : List Nat)
    (last : List Bind) (px py : Int) :
    ((pollTick conf keys buttons last px py).1 = none ↔
      candidates conf keys buttons = []) ∧
    (∀ e, (pollTick conf keys buttons last px py).1 = some e →
      (e.bind ∈ candidates conf keys buttons ∧
       (e.held = true ↔ last.contains e.bind = true) ∧
       ((∀ a ∈ candidates conf keys buttons,
           ∀ b ∈ candidates conf keys buttons,
           ¬(a.keys.length < b.keys.length ∧
             b.buttons.length < a.buttons.length)) →
         ∀ b ∈ candidates conf keys buttons,
           b.keys.length < e.bind.keys.length ∨
             (b.keys.length = e.bind.keys.length ∧
               b.buttons.length ≤ e.bind.buttons.length)))) := by
  unfold pollTick
  by_cases hemp : (candidates conf keys buttons).isEmpty
  · rw [if_pos hemp]
    rw [List.isEmpty_iff] at hemp
    exact ⟨by simp [hemp], by simp⟩
  · rw [if_neg hemp]
    rw [List.isEmpty_iff] at hemp
    cases hhead : (sortGo ltBind (candidates conf keys buttons)).head? with
    | none =>
      exfalso
      rw [List.head?_eq_none_iff] at hhead
      rcases List.exists_mem_of_ne_nil _ hemp with ⟨a, ha⟩
      have : a ∈ sortGo ltBind (candidates conf keys buttons) :=
        (sortGo_mem _ _ a).mpr ha
      rw [hhead] at this
      simp at this
    | some b =>
      simp only [hhead]
      constructor
      · constructor
        · intro hcon; simp at hcon
        · intro hcon; exact absurd hcon hemp
      · intro e he
        simp only [Option.some.injEq] at he
        subst he
        have hbmem : b ∈ candidates conf keys buttons := by
          refine (sortGo_mem ltBind _ b).mp ?_
          have := List.mem_of_mem_head? hhead
          exact this
        refine ⟨hbmem, Iff.rfl, ?_⟩
        intro hnoinv b2 hb2
        have hcongr : sortGo ltBind (candidates conf keys buttons) =
            sortGo lexGT (candidates conf keys buttons) :=
          sortGo_congr ltBind lexGT _
            (fun a ha b3 hb3 => ltBind_eq_lexGT a b3 (hnoinv a ha b3 hb3))
        rw [hcongr] at hhead
        have hmax := sortGo_headMax lexGT lexGT_asym lexGT_negTrans
          (candidates conf keys buttons) b hhead b2 hb2
        unfold lexGT at hmax
        simp only [Bool.or_eq_false_iff, Bool.and_eq_false_iff,
          decide_eq_false_iff_not] at hmax
        dsimp only
        omega

/-- Witness for C6 amended: with the spec's example — both `A+B` and
`A+B+C` held — the three-key binding is the emitted candidate. -/
theorem C6_amended_input_resolution_witness :
    (⟨[1, 2, 3], []⟩ : Ctl.Bind) ∈
      Ctl.candidates [⟨[1, 2], []⟩, ⟨[1, 2, 3], []⟩] [1, 2, 3] [] := by
  have h := (C6_amended_input_resolution [⟨[1, 2], []⟩, ⟨[1, 2, 3], []⟩]
    [1, 2, 3] [] [] 0 0).2 ⟨⟨[1, 2, 3], []⟩, false, 0, 0⟩ (by decide)
  exact h.1

end Resetti
